import Mathlib

/-!
Shallow embedding of the LCF NDA batch document generator (`app.py`).

Python strings are modelled as `List Char`.  The external capabilities
(pandas date parsing, docxtpl rendering, docx2pdf conversion) are passed
as oracle functions: `pd.to_datetime(...).strftime("%d-%m-%Y")` becomes a
`PyStr → Option PyStr` parameter (`none` models a raised parse exception),
and the per-row render/save/convert block becomes an
`Nat → Row → Except PyStr Unit` parameter (`Except.error e` models an
exception with message `e`).
-/

namespace LCFNDA

/-- Python strings, modelled as lists of characters. -/
abbrev PyStr := List Char

/-- Characters matched by the regex class `[\\/]` in `sanitize_filename`. -/
def isSep (c : Char) : Bool := c = '/' || c = '\\'

/-- Characters matched by Python's regex `\s` / `str.strip()` whitespace. -/
def isPySpace (c : Char) : Bool :=
  c = ' ' || c = '\t' || c = '\n' || c = '\r' || c = '\x0b' || c = '\x0c'

/-- Characters matched by the regex class `[:\*\?\"<>\|]` in `sanitize_filename`. -/
def isReserved (c : Char) : Bool :=
  c = ':' || c = '*' || c = '?' || c = '"' || c = '<' || c = '>' || c = '|'

/-- Helper for `collapseRuns`: `inRun` records whether the previous
character belonged to the class `p` (so the run has already emitted `r`). -/
def collapseAux (p : Char → Bool) (r : Char) : Bool → PyStr → PyStr
  | _, [] => []
  | inRun, c :: rest =>
    if p c then
      if inRun then collapseAux p r true rest
      else r :: collapseAux p r true rest
    else c :: collapseAux p r false rest

/-- `re.sub(r"[X]+", r, s)` for a character class `p`: every maximal run of
characters satisfying `p` is replaced by the single character `r`. -/
def collapseRuns (p : Char → Bool) (r : Char) (s : PyStr) : PyStr :=
  collapseAux p r false s

/-- Python `str.strip()`: drop whitespace from both ends. -/
def pyStrip (s : PyStr) : PyStr :=
  ((s.dropWhile isPySpace).reverse.dropWhile isPySpace).reverse

/-- The body of `sanitize_filename` before the `or "file"` fallback:
`re.sub(r"[\\/]+", "-", ·)`, then `re.sub(r"\s+", " ", ·).strip()`,
then `re.sub(r"[:\*\?\"<>\|]+", "", ·)`. -/
def sanitizeCore (name : PyStr) : PyStr :=
  let s1 := collapseRuns isSep '-' name
  let s2 := pyStrip (collapseRuns isPySpace ' ' s1)
  s2.filter (fun c => !isReserved c)

/-- `sanitize_filename` (app.py lines 35-42): collapse path separators to a
hyphen, collapse whitespace runs to one space and trim, strip reserved
characters, and fall back to `"file"` when the result is empty. -/
def sanitize_filename (name : PyStr) : PyStr :=
  let s3 := sanitizeCore name
  if s3 = [] then "file".toList else s3

/-- Fuelled worker for `replAll`; the fuel (at least the length of the
string being scanned) only makes the recursion structural. -/
def replAllFuel (p : Char) (ps : List Char) (rep : PyStr) : Nat → PyStr → PyStr
  | _, [] => []
  | 0, s => s
  | fuel + 1, c :: rest =>
    if (p :: ps).isPrefixOf (c :: rest) then
      rep ++ replAllFuel p ps rep fuel (rest.drop ps.length)
    else
      c :: replAllFuel p ps rep fuel rest

/-- Python `s.replace(pat, rep)` for a nonempty pattern `p :: ps`:
replace every non-overlapping occurrence, scanning left to right. -/
def replAll (p : Char) (ps : List Char) (rep : PyStr) (s : PyStr) : PyStr :=
  replAllFuel p ps rep s.length s

/-- `result.replace("{" + k + "}", v)` for one placeholder key `k`. -/
def substKey (k v s : PyStr) : PyStr :=
  replAll '{' (k ++ ['}']) v s

/-- The substitution loop of `render_filename` (app.py lines 59-61) over an
ordered association list of (key, value) pairs. -/
def substList (pairs : List (PyStr × PyStr)) (t : PyStr) : PyStr :=
  pairs.foldl (fun acc kv => substKey kv.1 kv.2 acc) t

/-- One row of the employees spreadsheet (columns validated at app.py
line 107: emp_name, city, state, joining_date, address, gender). -/
structure Row where
  emp_name : PyStr
  city : PyStr
  state : PyStr
  joining_date : PyStr
  address : PyStr
  gender : PyStr

/-- A date-formatting oracle: models
`pd.to_datetime(raw).strftime("%d-%m-%Y")`, with `none` for a raised
parse exception. -/
abbrev DateFmt := PyStr → Option PyStr

/-- The `try/except` around date formatting (app.py lines 47-50 and
160-163): the formatted date on success, `str(raw)` on failure. -/
def joiningDateVal (parse : DateFmt) (raw : PyStr) : PyStr :=
  match parse raw with
  | some d => d
  | none => raw

/-- Decimal rendering of the 1-based ordinal, Python `str(idx)`. -/
def natStr (n : Nat) : PyStr := (toString n).toList

/-- The `values` dict of `render_filename` (app.py lines 51-57), in Python
insertion order. -/
def renderValues (parse : DateFmt) (row : Row) (idx : Nat) : List (PyStr × PyStr) :=
  [ ("emp_name".toList, pyStrip row.emp_name),
    ("city".toList, pyStrip row.city),
    ("state".toList, pyStrip row.state),
    ("joining_date".toList, joiningDateVal parse row.joining_date),
    ("index".toList, natStr idx) ]

/-- `render_filename` (app.py lines 45-63): substitute the recognized
placeholders into the pattern, then sanitize. -/
def render_filename (parse : DateFmt) (template : PyStr) (row : Row) (idx : Nat) : PyStr :=
  sanitize_filename (substList (renderValues parse row idx) template)

/-- Python `str.lower()` (ASCII case folding suffices here). -/
def pyLower (s : PyStr) : PyStr := s.map Char.toLower

/-- `his_or_her = "his" if gender in ["male", "m"] else "her"` applied to
`str(row["gender"]).strip().lower()` (app.py lines 155-157). -/
def his_or_her (gender : PyStr) : PyStr :=
  let g := pyLower (pyStrip gender)
  if g = "male".toList ∨ g = "m".toList then "his".toList else "her".toList

/-- The render/save/convert oracle for one row: models the body of the
`try` block at app.py lines 182-192 (`doc.render`, `doc.save`,
`convert`), given the 1-based ordinal and the row.  `Except.error e`
models an exception with message `str(e)`. -/
abbrev RenderExec := Nat → Row → Except PyStr Unit

/-- One row of the report (app.py line 201). -/
structure ReportEntry where
  emp_name : PyStr
  filename : PyStr
  status : PyStr
deriving DecidableEq

/-- The status string computed by the `try/except` at lines 182-199:
`"Success"` or `"Error: " + str(e)`. -/
def statusOf : Except PyStr Unit → PyStr
  | .ok _ => "Success".toList
  | .error e => "Error: ".toList ++ e

/-- Mutable state of the generation loop (app.py lines 143-145):
`success_count`, `error_count`, `report_rows`. -/
structure LoopState where
  success_count : Nat
  error_count : Nat
  report_rows : List ReportEntry

/-- One iteration of the generation loop (app.py lines 148-201): render
the filename, run the render/save/convert block, update the counters and
append exactly one report row. -/
def stepRow (parse : DateFmt) (exec : RenderExec) (template : PyStr)
    (st : LoopState) (i : Nat) (r : Row) : LoopState :=
  let base_name := render_filename parse template r i
  let entry : ReportEntry :=
    { emp_name := pyStrip r.emp_name, filename := base_name, status := statusOf (exec i r) }
  match exec i r with
  | .ok _ =>
    { success_count := st.success_count + 1, error_count := st.error_count,
      report_rows := st.report_rows ++ [entry] }
  | .error _ =>
    { success_count := st.success_count, error_count := st.error_count + 1,
      report_rows := st.report_rows ++ [entry] }

/-- The generation loop itself, carrying the 1-based ordinal `i`. -/
def runRows (parse : DateFmt) (exec : RenderExec) (template : PyStr) :
    Nat → LoopState → List Row → LoopState
  | _, st, [] => st
  | i, st, r :: rest => runRows parse exec template (i + 1) (stepRow parse exec template st i r) rest

/-- The fields of the final `result` dict that concern the batch
(app.py lines 242-250). -/
structure BatchOut where
  total : Nat
  success : Nat
  error : Nat
  report : List ReportEntry

/-- The whole generation pass (app.py lines 142-201 and 242-250):
`total = len(df)`, counters start at zero, rows are processed in order
with 1-based ordinals. -/
def batchRun (parse : DateFmt) (exec : RenderExec) (template : PyStr) (rows : List Row) : BatchOut :=
  let st := runRows parse exec template 1 ⟨0, 0, []⟩ rows
  { total := rows.length, success := st.success_count, error := st.error_count,
    report := st.report_rows }

/-! ### Preview (app.py lines 84-90 and 115-134) -/

/-- Digit run of a Python integer literal, allowing single underscores
between digits (`[0-9](_?[0-9])*`), accumulating the value. -/
def pyDigitsAux (acc : Nat) : PyStr → Option Nat
  | [] => some acc
  | '_' :: c :: rest =>
    if c.isDigit then pyDigitsAux (acc * 10 + (c.toNat - 48)) rest else none
  | c :: rest =>
    if c.isDigit then pyDigitsAux (acc * 10 + (c.toNat - 48)) rest else none

/-- Nonempty digit run starting with a digit. -/
def pyDigits : PyStr → Option Nat
  | [] => none
  | c :: rest => if c.isDigit then pyDigitsAux (c.toNat - 48) rest else none

/-- Python `int(s)` on an already-stripped string: optional sign, then
digits; `none` models a raised `ValueError`. -/
def pyInt : PyStr → Option Int
  | '-' :: rest => (pyDigits rest).map (fun n => -(n : Int))
  | '+' :: rest => (pyDigits rest).map (fun n => (n : Int))
  | s => (pyDigits s).map (fun n => (n : Int))

/-- Resolution of the preview count (app.py lines 76 and 84-90): the form
value (`none` when the field is absent, defaulting to `"5"`) is stripped
and parsed; parse failure or a value below 1 yields 5. -/
def previewCountOf (raw : Option PyStr) : Int :=
  match pyInt (pyStrip (raw.getD ("5".toList))) with
  | some n => if n < 1 then 5 else n
  | none => 5

/-- One entry of the preview list (app.py lines 118-122). -/
structure PreviewRow where
  index : Nat
  emp_name : PyStr
  filename : PyStr
deriving DecidableEq

/-- The preview loop (app.py lines 116-124): append an entry for each row,
breaking after the entry whose ordinal reaches the preview count. -/
def previewLoop (parse : DateFmt) (template : PyStr) (pc : Int) :
    Nat → List Row → List PreviewRow
  | _, [] => []
  | i, r :: rest =>
    let e : PreviewRow :=
      { index := i, emp_name := pyStrip r.emp_name,
        filename := render_filename parse template r i ++ ".docx".toList }
    if pc ≤ (i : Int) then [e]
    else e :: previewLoop parse template pc (i + 1) rest

/-- The preview action (app.py lines 115-134).  The render/convert oracle
is passed in, mirroring its availability in the handler, but the preview
branch never consults it. -/
def previewAction (_exec : RenderExec) (parse : DateFmt) (template : PyStr)
    (raw : Option PyStr) (rows : List Row) : List PreviewRow :=
  previewLoop parse template (previewCountOf raw) 1 rows

/-! ### Download registry (app.py lines 32, 228-230, 257-269) -/

/-- Archive bytes. -/
abbrev ZipBytes := List Nat

/-- `GENERATED_ZIPS`, a dict from zip id to archive bytes, modelled as an
association list where the most recent binding wins. -/
abbrev Registry := List (PyStr × ZipBytes)

/-- Dict lookup. -/
def lookupZip (reg : Registry) (zip_id : PyStr) : Option ZipBytes :=
  match reg with
  | [] => none
  | (k, v) :: rest => if k = zip_id then some v else lookupZip rest zip_id

/-- `GENERATED_ZIPS[zip_id] = zip_buffer` (app.py line 230). -/
def storeZip (reg : Registry) (zip_id : PyStr) (b : ZipBytes) : Registry :=
  (zip_id, b) :: reg

/-- Response of the download endpoint: the 404 page or the archive. -/
inductive DLResp where
  | notFound
  | file (b : ZipBytes)
deriving DecidableEq

/-- `download_zip` (app.py lines 257-269): 404 when the id is absent,
otherwise send the stored bytes; the registry itself is not modified. -/
def download_zip (reg : Registry) (zip_id : PyStr) : DLResp × Registry :=
  match lookupZip reg zip_id with
  | none => (.notFound, reg)
  | some b => (.file b, reg)

/-! ### Specification combinators -/

/-- Indexed map over the rows, starting at ordinal `i`. -/
def mapFrom {β : Type} (f : Nat → Row → β) : Nat → List Row → List β
  | _, [] => []
  | i, r :: rest => f i r :: mapFrom f (i + 1) rest

/-- The report entry the loop produces for the row of ordinal `i`. -/
def reportEntryOf (parse : DateFmt) (exec : RenderExec) (template : PyStr)
    (i : Nat) (r : Row) : ReportEntry :=
  { emp_name := pyStrip r.emp_name, filename := render_filename parse template r i,
    status := statusOf (exec i r) }

/-- Number of rows from ordinal `i` on whose render/save/convert block
succeeds. -/
def countOkFrom (exec : RenderExec) : Nat → List Row → Nat
  | _, [] => 0
  | i, r :: rest =>
    (match exec i r with | .ok _ => 1 | .error _ => 0) + countOkFrom exec (i + 1) rest

/-- Number of rows from ordinal `i` on whose render/save/convert block
fails. -/
def countErrFrom (exec : RenderExec) : Nat → List Row → Nat
  | _, [] => 0
  | i, r :: rest =>
    (match exec i r with | .ok _ => 0 | .error _ => 1) + countErrFrom exec (i + 1) rest

/-- The preview entry computed for the row of ordinal `i`. -/
def previewEntryOf (parse : DateFmt) (template : PyStr) (i : Nat) (r : Row) : PreviewRow :=
  { index := i, emp_name := pyStrip r.emp_name,
    filename := render_filename parse template r i ++ ".docx".toList }

/-- No two adjacent characters of `l` both lie in the class `p`. -/
def NoAdjacent (p : Char → Bool) (l : PyStr) : Prop :=
  l.Chain' (fun a b => ¬(p a = true ∧ p b = true))

/-- Every class-`p` character of `l` is the replacement character `r`, and
no two class characters are adjacent: exactly the shape `collapseRuns`
produces. -/
def isNormalRun (p : Char → Bool) (r : Char) (l : PyStr) : Prop :=
  (∀ c ∈ l, p c = true → c = r) ∧ NoAdjacent p l

/-- A pattern fragment: literal text or a `\x7bkey\x7d` placeholder token. -/
inductive Chunk where
  | lit (s : PyStr)
  | tok (k : PyStr)

/-- Render a chunk list back into the pattern string it denotes. -/
def flattenChunks : List Chunk → PyStr
  | [] => []
  | .lit s :: r => s ++ flattenChunks r
  | .tok k :: r => '{' :: (k ++ '}' :: flattenChunks r)

/-- No brace character occurs in `s`. -/
def braceFreeB (s : PyStr) : Bool := s.all (fun c => !(c == '{' || c == '}'))

/-- A chunk is well formed when its payload is brace-free. -/
def goodChunkB : Chunk → Bool
  | .lit s => braceFreeB s
  | .tok k => braceFreeB k

/-- All chunks of the list are well formed. -/
def chunksOK (L : List Chunk) : Bool := L.all goodChunkB

/-- All keys and values of the substitution pairs are brace-free. -/
def pairsOKB (o : List (PyStr × PyStr)) : Bool :=
  o.all (fun kv => braceFreeB kv.1 && braceFreeB kv.2)

/-- Effect of substituting key `k` by value `v` on a single chunk. -/
def applyChunk (k v : PyStr) : Chunk → Chunk
  | .lit s => .lit s
  | .tok q => if q = k then .lit v else .tok q

/-- Chunk-level image of running the whole substitution list. -/
def applyPairs (o : List (PyStr × PyStr)) (L : List Chunk) : List Chunk :=
  o.foldl (fun acc kv => acc.map (applyChunk kv.1 kv.2)) L

/-! ### Lemmas about the generation loop -/

lemma mapFrom_length {β : Type} (f : Nat → Row → β) :
    ∀ (rows : List Row) (i : Nat), (mapFrom f i rows).length = rows.length := by
  intro rows
  induction rows with
  | nil => intro i; rfl
  | cons r rest ih => intro i; simp [mapFrom, ih]

lemma mapFrom_map {β γ : Type} (f : Nat → Row → β) (g : β → γ) :
    ∀ (rows : List Row) (i : Nat),
      (mapFrom f i rows).map g = mapFrom (fun j r => g (f j r)) i rows := by
  intro rows
  induction rows with
  | nil => intro i; rfl
  | cons r rest ih => intro i; simp [mapFrom, ih]

lemma countOk_add_countErr (exec : RenderExec) :
    ∀ (rows : List Row) (i : Nat),
      countOkFrom exec i rows + countErrFrom exec i rows = rows.length := by
  intro rows
  induction rows with
  | nil => intro i; rfl
  | cons r rest ih =>
    intro i
    simp only [countOkFrom, countErrFrom, List.length_cons]
    have hih := ih (i + 1)
    cases h : exec i r <;> simp only [h] <;> omega

lemma runRows_report (parse : DateFmt) (exec : RenderExec) (template : PyStr) :
    ∀ (rows : List Row) (i : Nat) (st : LoopState),
      (runRows parse exec template i st rows).report_rows
        = st.report_rows ++ mapFrom (reportEntryOf parse exec template) i rows := by
  intro rows
  induction rows with
  | nil => intro i st; simp [runRows, mapFrom]
  | cons r rest ih =>
    intro i st
    simp only [runRows, mapFrom, ih]
    cases h : exec i r <;>
      simp [stepRow, reportEntryOf, h, statusOf]

lemma runRows_success (parse : DateFmt) (exec : RenderExec) (template : PyStr) :
    ∀ (rows : List Row) (i : Nat) (st : LoopState),
      (runRows parse exec template i st rows).success_count
        = st.success_count + countOkFrom exec i rows := by
  intro rows
  induction rows with
  | nil => intro i st; simp [runRows, countOkFrom]
  | cons r rest ih =>
    intro i st
    simp only [runRows, countOkFrom, ih]
    cases h : exec i r <;> simp [stepRow, h] <;> omega

lemma runRows_error (parse : DateFmt) (exec : RenderExec) (template : PyStr) :
    ∀ (rows : List Row) (i : Nat) (st : LoopState),
      (runRows parse exec template i st rows).error_count
        = st.error_count + countErrFrom exec i rows := by
  intro rows
  induction rows with
  | nil => intro i st; simp [runRows, countErrFrom]
  | cons r rest ih =>
    intro i st
    simp only [runRows, countErrFrom, ih]
    cases h : exec i r <;> simp [stepRow, h] <;> omega

lemma batchRun_report (parse : DateFmt) (exec : RenderExec) (template : PyStr) (rows : List Row) :
    (batchRun parse exec template rows).report
      = mapFrom (reportEntryOf parse exec template) 1 rows := by
  simp [batchRun, runRows_report]

/-! ### Claim theorems (first group) -/

/-- C1: for every batch run, success count + error count = total row count,
and the total is the number of input rows. -/
theorem c1_success_error_total (parse : DateFmt) (exec : RenderExec)
    (template : PyStr) (rows : List Row) :
    (batchRun parse exec template rows).success + (batchRun parse exec template rows).error
        = (batchRun parse exec template rows).total
      ∧ (batchRun parse exec template rows).total = rows.length := by
  refine ⟨?_, rfl⟩
  simp [batchRun, runRows_success, runRows_error, countOk_add_countErr]

/-- C2: the batch never terminates early — there is one report row per input
row — and each row's status is determined by its own render/save/convert
outcome: `"Success"` on success, `"Error: " ++ e` when the block raised `e`,
independently of every other row. -/
theorem c2_per_row_isolation (parse : DateFmt) (exec : RenderExec)
    (template : PyStr) (rows : List Row) :
    (batchRun parse exec template rows).report.length = rows.length
      ∧ (batchRun parse exec template rows).report.map ReportEntry.status
          = mapFrom (fun i r => statusOf (exec i r)) 1 rows := by
  constructor
  · simp [batchRun_report, mapFrom_length]
  · simp [batchRun_report, mapFrom_map, reportEntryOf]

/-- C4: the batch produces exactly one ReportEntry per input row, in source
row order (ordinal `i` for the `i`-th row), and the entry's display name and
resolved base filename do not depend on the render/save/convert outcome. -/
theorem c4_report_order (parse : DateFmt) (exec : RenderExec)
    (template : PyStr) (rows : List Row) :
    (batchRun parse exec template rows).report
        = mapFrom (reportEntryOf parse exec template) 1 rows
      ∧ (batchRun parse exec template rows).report.length = rows.length
      ∧ (batchRun parse exec template rows).report.map (fun e => (e.emp_name, e.filename))
          = mapFrom (fun i r => (pyStrip r.emp_name, render_filename parse template r i)) 1 rows := by
  refine ⟨batchRun_report parse exec template rows, ?_, ?_⟩
  · simp [batchRun_report, mapFrom_length]
  · simp [batchRun_report, mapFrom_map, reportEntryOf]

/-- C5: the pronoun is `"his"` exactly when the trimmed, lower-cased gender
value is `"male"` or `"m"`; every other value, the empty string included,
yields `"her"` (a default-else classification). -/
theorem c5_pronoun (gender : PyStr) :
    (his_or_her gender = "his".toList
        ↔ (pyLower (pyStrip gender) = "male".toList ∨ pyLower (pyStrip gender) = "m".toList))
      ∧ (his_or_her gender = "his".toList ∨ his_or_her gender = "her".toList)
      ∧ his_or_her [] = "her".toList := by
  refine ⟨?_, ?_, by decide⟩
  · unfold his_or_her
    by_cases h : pyLower (pyStrip gender) = "male".toList ∨ pyLower (pyStrip gender) = "m".toList
    · rw [if_pos h]
      exact iff_of_true rfl h
    · rw [if_neg h]
      constructor
      · intro hc; exact absurd hc (by decide)
      · intro hc; exact absurd hc h
  · unfold his_or_her
    by_cases h : pyLower (pyStrip gender) = "male".toList ∨ pyLower (pyStrip gender) = "m".toList
    · rw [if_pos h]; left; rfl
    · rw [if_neg h]; right; rfl

/-- C8: retrieval from the download registry returns the stored archive
exactly when the identifier is present: a freshly stored id retrieves its
bytes, a stored id can be retrieved repeatedly with the same bytes and an
unchanged registry, and an absent id yields the terminal not-found
response. -/
theorem c8_registry (reg : Registry) (zip_id : PyStr) (b : ZipBytes) :
    download_zip (storeZip reg zip_id b) zip_id = (.file b, storeZip reg zip_id b)
      ∧ (∀ b', lookupZip reg zip_id = some b' →
          download_zip reg zip_id = (.file b', reg)
            ∧ download_zip (download_zip reg zip_id).2 zip_id = (.file b', reg))
      ∧ (lookupZip reg zip_id = none → download_zip reg zip_id = (.notFound, reg)) := by
  refine ⟨?_, ?_, ?_⟩
  · simp [download_zip, storeZip, lookupZip]
  · intro b' h
    have h1 : download_zip reg zip_id = (.file b', reg) := by simp [download_zip, h]
    exact ⟨h1, by rw [h1]; exact h1⟩
  · intro h
    simp [download_zip, h]

/-- Witness for C8 at a concrete registry: the stored identifier is served
(twice, with the registry unchanged) and an absent identifier gets the
not-found response. -/
theorem c8_registry_witness :
    download_zip [("id1".toList, [1, 2, 3])] "id1".toList
        = (.file [1, 2, 3], [("id1".toList, [1, 2, 3])])
      ∧ download_zip [] "id1".toList = (.notFound, []) :=
  ⟨((c8_registry [("id1".toList, [1, 2, 3])] "id1".toList [9]).2.1 [1, 2, 3] (by decide)).1,
   (c8_registry [] "id1".toList []).2.2 (by decide)⟩

/-- C9: date formatting never fails — the formatted date is used when the
parse oracle succeeds and the raw text otherwise — and neither the per-row
statuses nor the success/error counters depend on the date-parse oracle. -/
theorem c9_date_fallback (parse : DateFmt) (raw : PyStr) :
    ((∃ f, parse raw = some f ∧ joiningDateVal parse raw = f)
        ∨ (parse raw = none ∧ joiningDateVal parse raw = raw))
      ∧ (∀ (exec : RenderExec) (template : PyStr) (rows : List Row) (p₁ p₂ : DateFmt),
          (batchRun p₁ exec template rows).report.map ReportEntry.status
              = (batchRun p₂ exec template rows).report.map ReportEntry.status
            ∧ (batchRun p₁ exec template rows).success = (batchRun p₂ exec template rows).success
            ∧ (batchRun p₁ exec template rows).error = (batchRun p₂ exec template rows).error) := by
  constructor
  · cases h : parse raw with
    | none => exact Or.inr ⟨rfl, by simp [joiningDateVal, h]⟩
    | some f => exact Or.inl ⟨f, rfl, by simp [joiningDateVal, h]⟩
  · intro exec template rows p₁ p₂
    refine ⟨?_, ?_, ?_⟩
    · simp [batchRun_report, mapFrom_map, reportEntryOf]
    · simp [batchRun, runRows_success]
    · simp [batchRun, runRows_error]

/-! ### Preview lemmas and claim C7 -/

lemma previewLoop_eq_take (parse : DateFmt) (template : PyStr) :
    ∀ (rows : List Row) (i : Nat) (pc : Int),
      previewLoop parse template pc i rows
        = mapFrom (previewEntryOf parse template) i (rows.take ((pc - i).toNat + 1)) := by
  intro rows
  induction rows with
  | nil => intro i pc; simp [previewLoop, mapFrom]
  | cons r rest ih =>
    intro i pc
    by_cases h : pc ≤ (i : Int)
    · have h0 : (pc - i).toNat = 0 := by omega
      simp [previewLoop, h, h0, mapFrom, previewEntryOf]
    · have h1 : (pc - i).toNat + 1 = ((pc - (i + 1 : Nat)).toNat + 1) + 1 := by
        push_cast
        omega
      rw [h1]
      simp only [previewLoop, h, if_false, List.take_succ_cons, mapFrom]
      rw [ih (i + 1) pc]
      rfl

lemma previewCountOf_pos (raw : Option PyStr) : 1 ≤ previewCountOf raw := by
  unfold previewCountOf
  cases h : pyInt (pyStrip (raw.getD ("5".toList))) with
  | none => norm_num
  | some n =>
    show (1 : Int) ≤ if n < 1 then 5 else n
    split <;> omega

/-- C7: the preview action computes exactly one entry (ordinal, stripped
name, rendered filename with `".docx"` appended) for each of the first
min(count, total) rows, resolves an absent, unparseable, or non-positive
requested count to 5 (and a parseable count of at least 1 to itself), and
its output is independent of the render/convert oracle. -/
theorem c7_preview (exec₁ exec₂ : RenderExec) (parse : DateFmt) (template : PyStr)
    (raw : Option PyStr) (rows : List Row) :
    previewAction exec₁ parse template raw rows
        = mapFrom (previewEntryOf parse template) 1 (rows.take (previewCountOf raw).toNat)
      ∧ (previewAction exec₁ parse template raw rows).length
          = min (previewCountOf raw).toNat rows.length
      ∧ previewAction exec₁ parse template raw rows = previewAction exec₂ parse template raw rows
      ∧ 1 ≤ previewCountOf raw
      ∧ previewCountOf none = 5
      ∧ (∀ s, pyInt (pyStrip s) = none → previewCountOf (some s) = 5)
      ∧ (∀ s n, pyInt (pyStrip s) = some n → n < 1 → previewCountOf (some s) = 5)
      ∧ (∀ s n, pyInt (pyStrip s) = some n → 1 ≤ n → previewCountOf (some s) = n) := by
  have hpos : 1 ≤ previewCountOf raw := previewCountOf_pos raw
  have hmain : previewAction exec₁ parse template raw rows
      = mapFrom (previewEntryOf parse template) 1 (rows.take (previewCountOf raw).toNat) := by
    unfold previewAction
    rw [previewLoop_eq_take]
    have : ((previewCountOf raw - (1 : Nat)).toNat + 1) = (previewCountOf raw).toNat := by
      push_cast
      omega
    rw [this]
  refine ⟨hmain, ?_, rfl, hpos, by decide, ?_, ?_, ?_⟩
  · rw [hmain, mapFrom_length, List.length_take]
  · intro s h
    simp [previewCountOf, h]
  · intro s n h hn
    simp [previewCountOf, h, hn]
  · intro s n h hn
    have : ¬(n < 1) := by omega
    simp [previewCountOf, h, this]

/-- Witness for C7 at concrete inputs: an unparseable requested count and a
zero count both resolve to 5, a count of 7 resolves to 7, and the preview of
a two-row list with count 1 is the single expected entry. -/
theorem c7_preview_witness :
    previewCountOf (some "abc".toList) = 5
      ∧ previewCountOf (some "0".toList) = 5
      ∧ previewCountOf (some "7".toList) = 7 := by
  have h := c7_preview (fun _ _ => .ok ()) (fun _ _ => .ok ()) (fun _ => none) [] none []
  exact ⟨h.2.2.2.2.2.1 ("abc".toList) (by decide),
         h.2.2.2.2.2.2.1 ("0".toList) 0 (by decide) (by decide),
         h.2.2.2.2.2.2.2 ("7".toList) 7 (by decide) (by decide)⟩

/-! ### Character-level lemmas about `sanitize_filename` -/

lemma collapseAux_mem (p : Char → Bool) (r : Char) :
    ∀ (s : PyStr) (b : Bool) (c : Char), c ∈ collapseAux p r b s →
      (c ∈ s ∧ p c = false) ∨ c = r := by
  intro s
  induction s with
  | nil => intro b c h; cases h
  | cons d rest ih =>
    intro b c h
    by_cases hd : p d
    · rw [collapseAux, if_pos hd] at h
      cases b with
      | true =>
        rcases ih true c h with ⟨hm, hp⟩ | hr
        · exact Or.inl ⟨List.mem_cons_of_mem d hm, hp⟩
        · exact Or.inr hr
      | false =>
        rcases List.mem_cons.mp h with hc | h'
        · exact Or.inr hc
        · rcases ih true c h' with ⟨hm, hp⟩ | hr
          · exact Or.inl ⟨List.mem_cons_of_mem d hm, hp⟩
          · exact Or.inr hr
    · rw [collapseAux, if_neg hd] at h
      rcases List.mem_cons.mp h with hc | h'
      · exact Or.inl ⟨hc ▸ List.mem_cons_self d rest, hc ▸ eq_false_of_ne_true hd⟩
      · rcases ih false c h' with ⟨hm, hp⟩ | hr
        · exact Or.inl ⟨List.mem_cons_of_mem d hm, hp⟩
        · exact Or.inr hr

lemma mem_pyStrip (s : PyStr) (c : Char) (h : c ∈ pyStrip s) : c ∈ s := by
  unfold pyStrip at h
  rw [List.mem_reverse] at h
  have h1 := (List.dropWhile_sublist isPySpace).subset h
  rw [List.mem_reverse] at h1
  exact (List.dropWhile_sublist isPySpace).subset h1

lemma mem_sanitizeCore (s : PyStr) (c : Char) (h : c ∈ sanitizeCore s) :
    isSep c = false ∧ isReserved c = false := by
  unfold sanitizeCore at h
  have hres : isReserved c = false := by
    have := List.of_mem_filter h
    simpa using this
  refine ⟨?_, hres⟩
  have h1 : c ∈ pyStrip (collapseRuns isPySpace ' ' (collapseRuns isSep '-' s)) :=
    List.mem_of_mem_filter h
  have h2 := mem_pyStrip _ _ h1
  rcases collapseAux_mem isPySpace ' ' _ _ _ h2 with ⟨h3, _⟩ | hsp
  · rcases collapseAux_mem isSep '-' _ _ _ h3 with ⟨_, h4⟩ | hhy
    · exact h4
    · rw [hhy]; rfl
  · rw [hsp]; rfl

lemma sanitize_chars (s : PyStr) :
    sanitize_filename s ≠ []
      ∧ ∀ c ∈ sanitize_filename s, isSep c = false ∧ isReserved c = false := by
  unfold sanitize_filename
  by_cases h : sanitizeCore s = []
  · rw [if_pos h]
    exact ⟨by decide, by decide⟩
  · rw [if_neg h]
    exact ⟨h, fun c hc => mem_sanitizeCore s c hc⟩

/-- C3: for every pattern, row and ordinal, `render_filename` yields a
nonempty string containing no path separator (slash or backslash) and no
reserved character (colon, asterisk, question mark, double quote, angle
bracket, pipe); the fixed literal `"file"` is returned whenever
sanitization yields the empty string; and the spec's concrete example
(pattern `{emp_name} LCF NDA Form`, name `Jane/Doe`, ordinal 3) renders to
`Jane-Doe LCF NDA Form`. -/
theorem c3_filename_safe (parse : DateFmt) (template : PyStr) (row : Row) (idx : Nat) :
    render_filename parse template row idx ≠ []
      ∧ (∀ c ∈ render_filename parse template row idx,
          isSep c = false ∧ isReserved c = false)
      ∧ (∀ s, sanitizeCore s = [] → sanitize_filename s = "file".toList)
      ∧ render_filename (fun _ => none) "{emp_name} LCF NDA Form".toList
          { emp_name := "Jane/Doe".toList, city := [], state := [],
            joining_date := [], address := [], gender := [] } 3
          = "Jane-Doe LCF NDA Form".toList := by
  refine ⟨(sanitize_chars _).1, (sanitize_chars _).2, ?_, by decide⟩
  intro s hs
  unfold sanitize_filename
  rw [if_pos hs]

/-- Witness for C3: sanitizing a string of only reserved characters falls
back to the literal `"file"`, and that fallback is indeed what
`render_filename` returns on the all-colon pattern. -/
theorem c3_filename_safe_witness :
    sanitizeCore ("::".toList) = []
      ∧ sanitize_filename ("::".toList) = "file".toList
      ∧ render_filename (fun _ => none) "{emp_name} LCF NDA Form".toList
          { emp_name := "Jane/Doe".toList, city := [], state := [],
            joining_date := [], address := [], gender := [] } 3
          = "Jane-Doe LCF NDA Form".toList := by
  refine ⟨by decide, ?_, ?_⟩
  · exact (c3_filename_safe (fun _ => none) [] ⟨[], [], [], [], [], []⟩ 0).2.2.1
      ("::".toList) (by decide)
  · exact (c3_filename_safe (fun _ => none) [] ⟨[], [], [], [], [], []⟩ 0).2.2.2

/-! ### Idempotence analysis of `sanitize_filename` (claim C10) -/

lemma collapseAux_true_head (p : Char → Bool) (r : Char) :
    ∀ (s : PyStr) (c : Char) (rest : PyStr),
      collapseAux p r true s = c :: rest → p c = false := by
  intro s
  induction s with
  | nil => intro c rest h; cases h
  | cons d s' ih =>
    intro c rest h
    by_cases hd : p d
    · rw [collapseAux, if_pos hd] at h
      exact ih c rest h
    · rw [collapseAux, if_neg hd] at h
      cases h
      exact eq_false_of_ne_true hd

lemma normalRun_collapseAux (p : Char → Bool) (r : Char) :
    ∀ (s : PyStr) (b : Bool), isNormalRun p r (collapseAux p r b s) := by
  intro s
  induction s with
  | nil =>
    intro b
    exact ⟨fun c hc => absurd hc (List.not_mem_nil c), List.chain'_nil⟩
  | cons d s' ih =>
    intro b
    by_cases hd : p d
    · cases b with
      | true =>
        rw [collapseAux, if_pos hd]
        exact ih true
      | false =>
        rw [collapseAux, if_pos hd, if_neg Bool.false_ne_true]
        obtain ⟨ihmem, ihchain⟩ := ih true
        refine ⟨?_, ?_⟩
        · intro c hc _
          rcases List.mem_cons.mp hc with hcr | hc'
          · exact hcr
          · exact ihmem c hc' ‹p c = true›
        · rw [NoAdjacent, List.chain'_cons']
          refine ⟨?_, ihchain⟩
          intro h hh hph
          cases hout : collapseAux p r true s' with
          | nil => rw [hout] at hh; cases hh
          | cons e out' =>
            rw [hout] at hh
            simp only [List.head?_cons, Option.mem_def, Option.some.injEq] at hh
            have := collapseAux_true_head p r s' e out' hout
            rw [← hh] at hph
            rw [hph.2] at this
            cases this
    · rw [collapseAux, if_neg hd]
      obtain ⟨ihmem, ihchain⟩ := ih false
      refine ⟨?_, ?_⟩
      · intro c hc hpc
        rcases List.mem_cons.mp hc with hcd | hc'
        · rw [hcd] at hpc; exact absurd hpc hd
        · exact ihmem c hc' hpc
      · rw [NoAdjacent, List.chain'_cons']
        refine ⟨?_, ihchain⟩
        intro h _ hph
        exact hd hph.1

lemma collapseAux_id_of_normal (p : Char → Bool) (r : Char) :
    ∀ (l : PyStr), isNormalRun p r l → collapseAux p r false l = l := by
  intro l
  induction l with
  | nil => intro _; rfl
  | cons d rest ih =>
    intro ⟨hmem, hchain⟩
    by_cases hd : p d
    · have hdr : d = r := hmem d (List.mem_cons_self d rest) hd
      rw [collapseAux, if_pos hd, if_neg Bool.false_ne_true]
      cases rest with
      | nil => rw [hdr]; rfl
      | cons e rest' =>
        have hrel := (List.chain'_cons.mp hchain).1
        have hpe : ¬ p e = true := fun hc => hrel ⟨hd, hc⟩
        have hrest : isNormalRun p r (e :: rest') :=
          ⟨fun c hc hpc => hmem c (List.mem_cons_of_mem d hc) hpc,
           (List.chain'_cons.mp hchain).2⟩
        have hid : collapseAux p r false (e :: rest') = e :: rest' := ih hrest
        rw [collapseAux, if_neg hpe] at hid ⊢
        rw [hdr, hid]
    · rw [collapseAux, if_neg hd]
      have hrest : isNormalRun p r rest :=
        ⟨fun c hc hpc => hmem c (List.mem_cons_of_mem d hc) hpc, hchain.tail⟩
      rw [ih hrest]

lemma collapseAux_id_of_not (p : Char → Bool) (r : Char) :
    ∀ (l : PyStr) (b : Bool), (∀ c ∈ l, p c = false) → collapseAux p r b l = l := by
  intro l
  induction l with
  | nil => intro b _; rfl
  | cons d rest ih =>
    intro b h
    have hd : ¬ p d = true := by
      rw [h d (List.mem_cons_self d rest)]; exact Bool.false_ne_true
    rw [collapseAux, if_neg hd, ih false (fun c hc => h c (List.mem_cons_of_mem d hc))]

lemma noAdjacent_dropWhile (p q : Char → Bool) :
    ∀ (l : PyStr), NoAdjacent p l → NoAdjacent p (l.dropWhile q) := by
  intro l
  induction l with
  | nil => intro h; exact h
  | cons d rest ih =>
    intro h
    by_cases hd : q d
    · rw [List.dropWhile_cons_of_pos hd]
      exact ih h.tail
    · rw [List.dropWhile_cons_of_neg hd]
      exact h

lemma noAdjacent_reverse (p : Char → Bool) (l : PyStr) (h : NoAdjacent p l) :
    NoAdjacent p l.reverse := by
  rw [NoAdjacent, List.chain'_reverse]
  exact h.imp (fun a b hab hba => hab ⟨hba.2, hba.1⟩)

lemma normalRun_pyStrip (r : Char) (l : PyStr) (h : isNormalRun isPySpace r l) :
    isNormalRun isPySpace r (pyStrip l) := by
  obtain ⟨hmem, hchain⟩ := h
  refine ⟨fun c hc hpc => hmem c (mem_pyStrip l c hc) hpc, ?_⟩
  unfold pyStrip
  exact noAdjacent_reverse _ _ (noAdjacent_dropWhile _ _ _
    (noAdjacent_reverse _ _ (noAdjacent_dropWhile _ _ _ hchain)))

lemma dropWhile_head?_not (q : Char → Bool) :
    ∀ (l : PyStr) (c : Char), (l.dropWhile q).head? = some c → q c = false := by
  intro l
  induction l with
  | nil => intro c h; cases h
  | cons d rest ih =>
    intro c h
    by_cases hd : q d
    · rw [List.dropWhile_cons_of_pos hd] at h
      exact ih c h
    · rw [List.dropWhile_cons_of_neg hd] at h
      cases h
      exact eq_false_of_ne_true hd

lemma dropWhile_getLast?_eq (q : Char → Bool) :
    ∀ (l : PyStr), l.dropWhile q ≠ [] → (l.dropWhile q).getLast? = l.getLast? := by
  intro l
  induction l with
  | nil => intro h; exact absurd rfl h
  | cons d rest ih =>
    intro h
    by_cases hd : q d
    · rw [List.dropWhile_cons_of_pos hd] at h ⊢
      have hrest : rest ≠ [] := by
        intro he
        rw [he] at h
        exact h rfl
      rw [ih h]
      cases rest with
      | nil => exact absurd rfl hrest
      | cons e rest' => rw [List.getLast?_cons_cons]
    · rw [List.dropWhile_cons_of_neg hd]

lemma dropWhile_eq_self_of_head? (q : Char → Bool) (l : PyStr)
    (h : ∀ c, l.head? = some c → q c = false) : l.dropWhile q = l := by
  cases l with
  | nil => rfl
  | cons d rest =>
    have hd : ¬ q d = true := by
      rw [h d rfl]; exact Bool.false_ne_true
    exact List.dropWhile_cons_of_neg hd

lemma pyStrip_idem (l : PyStr) : pyStrip (pyStrip l) = pyStrip l := by
  have hA : (pyStrip l).dropWhile isPySpace = pyStrip l := by
    apply dropWhile_eq_self_of_head?
    intro c hc
    unfold pyStrip at hc
    rw [List.head?_reverse] at hc
    have hu : (l.dropWhile isPySpace).reverse.dropWhile isPySpace ≠ [] := by
      intro he
      rw [he] at hc
      cases hc
    rw [dropWhile_getLast?_eq _ _ hu, List.getLast?_reverse] at hc
    exact dropWhile_head?_not _ _ _ hc
  have hB : ((l.dropWhile isPySpace).reverse.dropWhile isPySpace).dropWhile isPySpace
      = (l.dropWhile isPySpace).reverse.dropWhile isPySpace := by
    apply dropWhile_eq_self_of_head?
    intro c hc
    exact dropWhile_head?_not _ _ _ hc
  show (((pyStrip l).dropWhile isPySpace).reverse.dropWhile isPySpace).reverse = pyStrip l
  rw [hA]
  unfold pyStrip
  rw [List.reverse_reverse, hB]

lemma sanitizeCore_eq_of_reservedFree (s : PyStr)
    (h : ∀ c ∈ s, isReserved c = false) :
    sanitizeCore s
      = pyStrip (collapseRuns isPySpace ' ' (collapseRuns isSep '-' s)) := by
  unfold sanitizeCore
  apply List.filter_eq_self.mpr
  intro c hc
  have h1 := mem_pyStrip _ _ hc
  have hres : isReserved c = false := by
    rcases collapseAux_mem isPySpace ' ' _ _ _ h1 with ⟨h2, _⟩ | hsp
    · rcases collapseAux_mem isSep '-' _ _ _ h2 with ⟨h3, _⟩ | hhy
      · exact h c h3
      · rw [hhy]; rfl
    · rw [hsp]; rfl
  rw [hres]
  rfl

/-- C10 counterexample: on the input `"a :"` the first sanitization removes
the colon and leaves a trailing space (`"a "`), and a second application
trims that space, so `sanitize_filename` is not idempotent as claimed. -/
theorem c10_counterexample :
    ¬ (sanitize_filename (sanitize_filename ("a :".toList))
        = sanitize_filename ("a :".toList)) := by
  decide

/-- C10 (amended): `sanitize_filename` is idempotent on every input that
contains no reserved character (colon, asterisk, question mark, double
quote, angle bracket, pipe); in general only removal of reserved
characters, which can expose fresh leading/trailing or doubled whitespace,
breaks idempotence. -/
theorem c10_amended (s : PyStr) (hres : ∀ c ∈ s, isReserved c = false) :
    sanitize_filename (sanitize_filename s) = sanitize_filename s := by
  have hcore := sanitizeCore_eq_of_reservedFree s hres
  by_cases hnil : sanitizeCore s = []
  · have hfile : sanitize_filename s = "file".toList := by
      rw [sanitize_filename, if_pos hnil]
    rw [hfile]
    decide
  · have hsan : sanitize_filename s = sanitizeCore s := by
      rw [sanitize_filename, if_neg hnil]
    rw [hsan]
    have hsep : ∀ c ∈ sanitizeCore s, isSep c = false :=
      fun c hc => (mem_sanitizeCore s c hc).1
    have hres2 : ∀ c ∈ sanitizeCore s, isReserved c = false :=
      fun c hc => (mem_sanitizeCore s c hc).2
    have h1 : collapseRuns isSep '-' (sanitizeCore s) = sanitizeCore s :=
      collapseAux_id_of_not isSep '-' _ false hsep
    have hnorm : isNormalRun isPySpace ' ' (sanitizeCore s) := by
      rw [hcore]
      exact normalRun_pyStrip ' ' _ (normalRun_collapseAux isPySpace ' ' _ false)
    have h2 : collapseRuns isPySpace ' ' (sanitizeCore s) = sanitizeCore s :=
      collapseAux_id_of_normal isPySpace ' ' _ hnorm
    have h3 : pyStrip (sanitizeCore s) = sanitizeCore s := by
      rw [hcore]
      exact pyStrip_idem _
    have h4 : sanitizeCore (sanitizeCore s) = sanitizeCore s := by
      show (pyStrip (collapseRuns isPySpace ' '
          (collapseRuns isSep '-' (sanitizeCore s)))).filter (fun c => !isReserved c)
        = sanitizeCore s
      rw [h1, h2, h3]
      exact List.filter_eq_self.mpr (fun c hc => by rw [hres2 c hc]; rfl)
    rw [sanitize_filename, h4, if_neg hnil]

/-- Witness for C10 (amended) at a concrete reserved-free input containing
a path separator and doubled whitespace. -/
theorem c10_amended_witness :
    sanitize_filename (sanitize_filename ("a/b  c ".toList))
      = sanitize_filename ("a/b  c ".toList) :=
  c10_amended ("a/b  c ".toList) (by decide)

/-! ### Substitution-order analysis (claim C6) -/

lemma braceFreeB_no_open (s : PyStr) (h : braceFreeB s = true) : ∀ c ∈ s, c ≠ '{' := by
  rw [braceFreeB, List.all_eq_true] at h
  intro c hc
  have := h c hc
  simp only [Bool.not_eq_eq_eq_not, Bool.not_true, Bool.or_eq_false_iff, beq_eq_false_iff_ne,
    ne_eq] at this
  exact this.1

lemma braceFreeB_no_close (s : PyStr) (h : braceFreeB s = true) : ∀ c ∈ s, c ≠ '}' := by
  rw [braceFreeB, List.all_eq_true] at h
  intro c hc
  have := h c hc
  simp only [Bool.not_eq_eq_eq_not, Bool.not_true, Bool.or_eq_false_iff, beq_eq_false_iff_ne,
    ne_eq] at this
  exact this.2

lemma replAllFuel_congr (p : Char) (ps rep : PyStr) :
    ∀ (f₁ : Nat) (s : PyStr) (f₂ : Nat), s.length ≤ f₁ → s.length ≤ f₂ →
      replAllFuel p ps rep f₁ s = replAllFuel p ps rep f₂ s := by
  intro f₁
  induction f₁ with
  | zero =>
    intro s f₂ h₁ _
    have hs : s = [] := List.eq_nil_of_length_eq_zero (Nat.le_zero.mp h₁)
    subst hs
    cases f₂ <;> rfl
  | succ g ih =>
    intro s f₂ h₁ h₂
    cases s with
    | nil => cases f₂ <;> rfl
    | cons c rest =>
      cases f₂ with
      | zero => simp at h₂
      | succ f =>
        show (if (p :: ps).isPrefixOf (c :: rest) then
                rep ++ replAllFuel p ps rep g (rest.drop ps.length)
              else c :: replAllFuel p ps rep g rest)
            = (if (p :: ps).isPrefixOf (c :: rest) then
                rep ++ replAllFuel p ps rep f (rest.drop ps.length)
              else c :: replAllFuel p ps rep f rest)
        have hg : rest.length ≤ g := by
          simpa using h₁
        have hf : rest.length ≤ f := by
          simpa using h₂
        by_cases hpre : (p :: ps).isPrefixOf (c :: rest)
        · rw [if_pos hpre, if_pos hpre]
          congr 1
          exact ih _ f (by simp only [List.length_drop]; omega)
            (by simp only [List.length_drop]; omega)
        · rw [if_neg hpre, if_neg hpre]
          congr 1
          exact ih _ f hg hf

lemma replAll_cons (p : Char) (ps rep : PyStr) (c : Char) (rest : PyStr) :
    replAll p ps rep (c :: rest)
      = if (p :: ps).isPrefixOf (c :: rest) then
          rep ++ replAll p ps rep (rest.drop ps.length)
        else c :: replAll p ps rep rest := by
  show (if (p :: ps).isPrefixOf (c :: rest) then
          rep ++ replAllFuel p ps rep rest.length (rest.drop ps.length)
        else c :: replAllFuel p ps rep rest.length rest) = _
  by_cases hpre : (p :: ps).isPrefixOf (c :: rest)
  · rw [if_pos hpre, if_pos hpre]
    congr 1
    exact replAllFuel_congr p ps rep rest.length _ _
      (by simp only [List.length_drop]; omega) le_rfl
  · rw [if_neg hpre, if_neg hpre]
    rfl

lemma replAll_append_of_ne (p : Char) (ps rep : PyStr) :
    ∀ (x y : PyStr), (∀ c ∈ x, c ≠ p) →
      replAll p ps rep (x ++ y) = x ++ replAll p ps rep y := by
  intro x
  induction x with
  | nil => intro y _; simp
  | cons c x' ih =>
    intro y hx
    have hcp : c ≠ p := hx c (List.mem_cons_self c x')
    rw [List.cons_append, replAll_cons]
    have hfalse : (p :: ps).isPrefixOf (c :: (x' ++ y)) = false := by
      show (p == c && ps.isPrefixOf (x' ++ y)) = false
      rw [beq_eq_false_iff_ne.mpr (Ne.symm hcp)]
      exact Bool.false_and _
    rw [hfalse, if_neg Bool.false_ne_true, ih y (fun d hd => hx d (List.mem_cons_of_mem c hd))]
    rfl

lemma replAll_append_self (p : Char) (ps rep : PyStr) (rest : PyStr) :
    replAll p ps rep ((p :: ps) ++ rest) = rep ++ replAll p ps rep rest := by
  rw [List.cons_append, replAll_cons]
  have hpre : (p :: ps).isPrefixOf (p :: (ps ++ rest)) = true := by
    rw [ List.isPrefixOf_iff_prefix]
    exact List.prefix_append (p :: ps) rest
  rw [hpre, if_pos rfl, List.drop_left]

lemma key_isPrefixOf_false :
    ∀ (k kp : PyStr), (∀ c ∈ k, c ≠ '}') → (∀ c ∈ kp, c ≠ '}') → k ≠ kp →
      ∀ (z : PyStr), (k ++ ['}']).isPrefixOf (kp ++ '}' :: z) = false := by
  intro k
  induction k with
  | nil =>
    intro kp _ hkp hne z
    cases kp with
    | nil => exact absurd rfl hne
    | cons c kp' =>
      show ('}' == c && List.isPrefixOf [] (kp' ++ '}' :: z)) = false
      rw [beq_eq_false_iff_ne.mpr (Ne.symm (hkp c (List.mem_cons_self c kp')))]
      exact Bool.false_and _
  | cons c k' ih =>
    intro kp hk hkp hne z
    cases kp with
    | nil =>
      show (c == '}' && (k' ++ ['}']).isPrefixOf z) = false
      rw [beq_eq_false_iff_ne.mpr (hk c (List.mem_cons_self c k'))]
      exact Bool.false_and _
    | cons d kp' =>
      show (c == d && (k' ++ ['}']).isPrefixOf (kp' ++ '}' :: z)) = false
      by_cases hcd : c = d
      · subst hcd
        rw [ih kp' (fun e he => hk e (List.mem_cons_of_mem c he))
          (fun e he => hkp e (List.mem_cons_of_mem c he))
          (fun h => hne (by rw [h])) z]
        exact Bool.and_false _
      · rw [beq_eq_false_iff_ne.mpr hcd]
        exact Bool.false_and _

lemma replAll_flattenChunks (k v : PyStr) (hk : braceFreeB k = true) :
    ∀ (L : List Chunk), chunksOK L = true →
      replAll '{' (k ++ ['}']) v (flattenChunks L)
        = flattenChunks (L.map (applyChunk k v)) := by
  intro L
  induction L with
  | nil => intro _; rfl
  | cons ch L' ih =>
    intro hOK
    rw [chunksOK, List.all_cons, Bool.and_eq_true] at hOK
    obtain ⟨hch, hL'⟩ := hOK
    cases ch with
    | lit s =>
      show replAll '{' (k ++ ['}']) v (s ++ flattenChunks L')
        = s ++ flattenChunks (L'.map (applyChunk k v))
      rw [replAll_append_of_ne '{' (k ++ ['}']) v s _ (braceFreeB_no_open s hch),
        ih hL']
    | tok q =>
      by_cases hqk : q = k
      · subst hqk
        have hflat : flattenChunks (Chunk.tok q :: L')
            = (('{' :: (q ++ ['}'])) ++ flattenChunks L') := by
          show '{' :: (q ++ '}' :: flattenChunks L') = _
          simp
        rw [hflat, replAll_append_self, ih hL']
        show v ++ flattenChunks (L'.map (applyChunk q v))
          = flattenChunks (applyChunk q v (Chunk.tok q) :: L'.map (applyChunk q v))
        rw [applyChunk, if_pos rfl]
        rfl
      · show replAll '{' (k ++ ['}']) v ('{' :: (q ++ '}' :: flattenChunks L'))
          = flattenChunks (applyChunk k v (Chunk.tok q) :: L'.map (applyChunk k v))
        rw [replAll_cons]
        have hfalse : ('{' :: (k ++ ['}'])).isPrefixOf ('{' :: (q ++ '}' :: flattenChunks L'))
            = false := by
          show ('{' == '{' && (k ++ ['}']).isPrefixOf (q ++ '}' :: flattenChunks L')) = false
          rw [key_isPrefixOf_false k q (braceFreeB_no_close k hk)
            (braceFreeB_no_close q hch) (fun h => hqk (by rw [h])) (flattenChunks L')]
          exact Bool.and_false _
        rw [hfalse, if_neg Bool.false_ne_true]
        have hq : replAll '{' (k ++ ['}']) v (q ++ '}' :: flattenChunks L')
            = q ++ replAll '{' (k ++ ['}']) v ('}' :: flattenChunks L') := by
          exact replAll_append_of_ne '{' (k ++ ['}']) v q _ (braceFreeB_no_open q hch)
        rw [hq, replAll_cons]
        have hfalse2 : ('{' :: (k ++ ['}'])).isPrefixOf ('}' :: flattenChunks L') = false := by
          show ('{' == '}' && (k ++ ['}']).isPrefixOf (flattenChunks L')) = false
          rw [beq_eq_false_iff_ne.mpr (by decide : '{' ≠ '}')]
          exact Bool.false_and _
        rw [hfalse2, if_neg Bool.false_ne_true, ih hL']
        rw [applyChunk, if_neg hqk]
        rfl

lemma chunksOK_map (k v : PyStr) (hv : braceFreeB v = true) (L : List Chunk)
    (hL : chunksOK L = true) : chunksOK (L.map (applyChunk k v)) = true := by
  rw [chunksOK, List.all_eq_true] at hL ⊢
  intro ch hch
  rcases List.mem_map.mp hch with ⟨ch₀, hch₀, rfl⟩
  cases ch₀ with
  | lit s => exact hL (Chunk.lit s) hch₀
  | tok q =>
    by_cases hqk : q = k
    · rw [applyChunk, if_pos hqk]
      exact hv
    · rw [applyChunk, if_neg hqk]
      exact hL (Chunk.tok q) hch₀

lemma substList_flatten :
    ∀ (o : List (PyStr × PyStr)) (L : List Chunk), pairsOKB o = true → chunksOK L = true →
      substList o (flattenChunks L) = flattenChunks (applyPairs o L) := by
  intro o
  induction o with
  | nil => intro L _ _; rfl
  | cons kv o' ih =>
    intro L ho hL
    rw [pairsOKB, List.all_cons, Bool.and_eq_true, Bool.and_eq_true] at ho
    obtain ⟨⟨hk, hv⟩, ho'⟩ := ho
    show substList o' (substKey kv.1 kv.2 (flattenChunks L))
      = flattenChunks (applyPairs o' (L.map (applyChunk kv.1 kv.2)))
    rw [substKey, replAll_flattenChunks kv.1 kv.2 hk L hL,
      ih (L.map (applyChunk kv.1 kv.2)) ho' (chunksOK_map kv.1 kv.2 hv L hL)]

lemma applyChunk_comm (k₁ v₁ k₂ v₂ : PyStr) (h : k₁ ≠ k₂) (c : Chunk) :
    applyChunk k₂ v₂ (applyChunk k₁ v₁ c) = applyChunk k₁ v₁ (applyChunk k₂ v₂ c) := by
  cases c with
  | lit s => rfl
  | tok q =>
    by_cases h₁ : q = k₁
    · subst h₁
      simp [applyChunk, h]
    · by_cases h₂ : q = k₂
      · subst h₂
        simp [applyChunk, h₁]
      · simp [applyChunk, h₁, h₂]

lemma applyPairs_perm :
    ∀ (o₁ o₂ : List (PyStr × PyStr)), o₁.Perm o₂ → (o₁.map Prod.fst).Nodup →
      ∀ (L : List Chunk), applyPairs o₁ L = applyPairs o₂ L := by
  intro o₁ o₂ hp
  induction hp with
  | nil => intro _ L; rfl
  | cons x h ih =>
    intro hnd L
    rw [List.map_cons] at hnd
    show applyPairs _ (L.map (applyChunk x.1 x.2)) = applyPairs _ (L.map (applyChunk x.1 x.2))
    exact ih hnd.of_cons _
  | swap x y l =>
    intro hnd L
    show applyPairs l ((L.map (applyChunk y.1 y.2)).map (applyChunk x.1 x.2))
      = applyPairs l ((L.map (applyChunk x.1 x.2)).map (applyChunk y.1 y.2))
    congr 1
    rw [List.map_map, List.map_map]
    have hyx : y.1 ≠ x.1 := by
      rw [List.map_cons, List.map_cons] at hnd
      have h1 := (List.nodup_cons.mp hnd).1
      intro he
      exact h1 (he ▸ List.mem_cons_self x.1 (l.map Prod.fst))
    have hfun : (applyChunk x.1 x.2 ∘ applyChunk y.1 y.2)
        = (applyChunk y.1 y.2 ∘ applyChunk x.1 x.2) := by
      funext c
      exact applyChunk_comm y.1 y.2 x.1 x.2 hyx c
    rw [hfun]
  | trans h₁ h₂ ih₁ ih₂ =>
    intro hnd L
    rw [ih₁ hnd L, ih₂ (((h₁.map Prod.fst).nodup_iff).mp hnd) L]

/-- C6 counterexample: with pattern `"\x7bemp_name\x7d"` and a row whose
`emp_name` value is the literal text `"\x7bcity\x7d"`, substituting in the
code's order then yields the city value, while the reversed order leaves the
literal token, so substitution order is observable. -/
theorem c6_counterexample :
    ((renderValues (fun _ => none)
        { emp_name := "{city}".toList, city := "X".toList, state := [],
          joining_date := [], address := [], gender := [] } 1).reverse).Perm
      (renderValues (fun _ => none)
        { emp_name := "{city}".toList, city := "X".toList, state := [],
          joining_date := [], address := [], gender := [] } 1)
    ∧ ¬ (substList ((renderValues (fun _ => none)
          { emp_name := "{city}".toList, city := "X".toList, state := [],
            joining_date := [], address := [], gender := [] } 1).reverse)
          "{emp_name}".toList
        = substList (renderValues (fun _ => none)
          { emp_name := "{city}".toList, city := "X".toList, state := [],
            joining_date := [], address := [], gender := [] } 1)
          "{emp_name}".toList) :=
  ⟨List.reverse_perm _, by decide⟩

/-- C6 (amended): substitution order cannot be observed on well-formed
patterns — an alternation of brace-free literal text and placeholder
tokens — when every substituted key and value is brace-free and the keys
are pairwise distinct: any two substitution orders that are permutations of
one another produce the same string.  (Without these provisos order is
observable, e.g. when a value contains a literal placeholder token.) -/
theorem c6_order_amended (L : List Chunk) (o₁ o₂ : List (PyStr × PyStr))
    (hL : chunksOK L = true) (ho : pairsOKB o₁ = true)
    (hp : o₁.Perm o₂) (hnd : (o₁.map Prod.fst).Nodup) :
    substList o₁ (flattenChunks L) = substList o₂ (flattenChunks L) := by
  have ho₂ : pairsOKB o₂ = true := by
    rw [pairsOKB, List.all_eq_true] at ho ⊢
    exact fun kv hkv => ho kv (hp.symm.subset hkv)
  rw [substList_flatten o₁ L ho hL, substList_flatten o₂ L ho₂ hL,
    applyPairs_perm o₁ o₂ hp hnd L]

/-- Witness for C6 (amended): on the well-formed pattern
`"\x7bemp_name\x7d LCF NDA Form"` with the Jane/Doe row of the spec's
example, the code's substitution order and its reverse agree. -/
theorem c6_order_amended_witness :
    substList (renderValues (fun _ => none)
        { emp_name := "Jane/Doe".toList, city := [], state := [],
          joining_date := [], address := [], gender := [] } 3)
        (flattenChunks [Chunk.tok ("emp_name".toList), Chunk.lit (" LCF NDA Form".toList)])
      = substList ((renderValues (fun _ => none)
        { emp_name := "Jane/Doe".toList, city := [], state := [],
          joining_date := [], address := [], gender := [] } 3).reverse)
        (flattenChunks [Chunk.tok ("emp_name".toList), Chunk.lit (" LCF NDA Form".toList)]) :=
  c6_order_amended
    [Chunk.tok ("emp_name".toList), Chunk.lit (" LCF NDA Form".toList)]
    (renderValues (fun _ => none)
      { emp_name := "Jane/Doe".toList, city := [], state := [],
        joining_date := [], address := [], gender := [] } 3)
    ((renderValues (fun _ => none)
      { emp_name := "Jane/Doe".toList, city := [], state := [],
        joining_date := [], address := [], gender := [] } 3).reverse)
    (by decide) (by decide) (List.reverse_perm _).symm (by decide)

end LCFNDA
